import Mathlib

/-!
Verification of the Merkle-whitelist core of the Voting-dapp repository.

Shallow embedding conventions:

* A Digest (32-byte keccak256 output) is modelled as a natural number.  The
  JavaScript tree builder compares two digests with
  `a.toLowerCase() <= b.toLowerCase()` on fixed-width lowercase hex strings
  ("0x" + 64 hex digits); on equal-width lowercase hex strings the string
  order coincides with the numeric order of the encoded value, and the
  on-chain comparison `a < b` on `bytes32` is that same numeric order, so both
  are modelled by the order on `Nat`.
* An address (20 bytes) is likewise modelled as a natural number.
  `ethers.getAddress` only normalises the letter case of the hex text (the
  checksum), leaving the 20-byte value unchanged, so address normalisation is
  the identity on the modelled value.
* keccak256 is cryptographic and is not re-implemented; every definition and
  theorem is parametric in the hash.  `H : Nat → Nat → Nat` stands for
  "keccak256 of the concatenation of the 32-byte encodings of the two
  arguments", and `keccakAddress : Nat → Nat` stands for "keccak256 of the
  20-byte encoding of an address".
* JavaScript array indexing past the end yields `undefined`; reads are
  therefore modelled with `List.getElem?` (`Option`-valued) where the source
  can actually go out of range.
* The JavaScript `idx ^ 1` is a 32-bit xor; proof indices are array indices
  (far below 2^31), where it agrees with `Nat` xor `^^^`.
-/

namespace VotingDapp

/-- One pairwise combination step of the tree builder
(MerkleGeneratorCSV.jsx, buildMerkleTree, lines 58 and 62-63):
order the two digests canonically, the smaller-or-equal first
(`a.toLowerCase() <= b.toLowerCase() ? [a, b] : [b, a]`), then hash the
concatenation (`keccak(ethers.concat([hexToBytes(A), hexToBytes(B)]))`). -/
def combine (H : Nat → Nat → Nat) (a b : Nat) : Nat :=
  if a ≤ b then H a b else H b a

/-- Modelled from the spec: the pair-combination step of the on-chain
verifier (OpenZeppelin MerkleProof._hashPair, a library dependency whose
source is not in the repository): `a < b ? hash(a, b) : hash(b, a)`,
exactly the canonical-ordering-then-concatenate-then-hash rule of spec
section 4.2 / 4.4. -/
def hashPair (H : Nat → Nat → Nat) (a b : Nat) : Nat :=
  if a < b then H a b else H b a

/-- Modelled from the spec: the on-chain proof processor (OpenZeppelin
MerkleProof.processProof, library code not in the repository; spec section
4.4): start from the claimed leaf and absorb each proof element in order into
the running digest. -/
def processProof (H : Nat → Nat → Nat) (proof : List Nat) (leaf : Nat) : Nat :=
  proof.foldl (hashPair H) leaf

/-- Modelled from the spec: the on-chain membership check
(OpenZeppelin MerkleProof.verify, library code not in the repository; spec
section 4.4): accept iff the processed proof reproduces the expected root. -/
def verify (H : Nat → Nat → Nat) (proof : List Nat) (root leaf : Nat) : Bool :=
  processProof H proof leaf == root

/-- One round of the `while` loop of buildMerkleTree
(MerkleGeneratorCSV.jsx lines 48-69): walk the level two nodes at a time
(`for (let i = 0; i < level.length; i += 2)`), combining each pair; an
unpaired last node (odd level length) is combined with itself
(lines 54-60, `right === null` branch). -/
def nextLevel (H : Nat → Nat → Nat) : List Nat → List Nat
  | [] => []
  | [a] => [combine H a a]
  | a :: b :: rest => combine H a b :: nextLevel H rest

/-- The `while (level.length > 1)` loop of buildMerkleTree
(MerkleGeneratorCSV.jsx lines 48-69), rendered functionally with an explicit
iteration bound: each round at least halves a level of two or more nodes, so
the loop runs fewer times than the initial level length and never exhausts
the bound (lemmas buildMerkleTree_step and buildMerkleTree_base below give
the loop's two defining equations, independent of the bound). -/
def buildLevelsGo (H : Nat → Nat → Nat) : Nat → List Nat → List (List Nat)
  | 0, level => [level]
  | fuel + 1, level =>
    if 1 < level.length then level :: buildLevelsGo H fuel (nextLevel H level)
    else [level]

/-- The tree builder (MerkleGeneratorCSV.jsx lines 44-72): starting from the
leaves, repeatedly push the combined next level while more than one node
remains.  The result is the `levels` array of the source: level 0 is the leaf
list, the last level holds the root.  On fewer than two nodes the loop body
never runs and the result is the single input level (for zero leaves the
source returns `{ levels: [[]] }`). -/
def buildMerkleTree (H : Nat → Nat → Nat) (leaves : List Nat) : List (List Nat) :=
  buildLevelsGo H leaves.length leaves

/-- Root extraction of handleGenerateRootAndProofs (MerkleGeneratorCSV.jsx
line 202): `tree.levels.length ? tree.levels[tree.levels.length - 1][0] :
null`, i.e. the first entry of the last level when it exists. -/
def treeRoot (levels : List (List Nat)) : Option Nat :=
  levels.getLast?.bind List.head?

/-- The `for (let l = 0; ...)` loop body of getProofForIndex
(MerkleGeneratorCSV.jsx lines 81-91), run on the list of non-root levels:
push the sibling `level[idx ^ 1]` when that position exists, otherwise push
`level[idx]` (the node itself; `undefined`, modelled as `none`, when `idx`
is itself out of range), then climb with `idx = Math.floor(idx / 2)`. -/
def proofLoop : List (List Nat) → Nat → List (Option Nat)
  | [], _ => []
  | level :: rest, idx =>
    (if idx ^^^ 1 < level.length then level[idx ^^^ 1]? else level[idx]?)
      :: proofLoop rest (idx / 2)

/-- Proof extraction (MerkleGeneratorCSV.jsx lines 78-93): run the sibling
loop over every level but the last. -/
def getProofForIndex (levels : List (List Nat)) (index : Nat) : List (Option Nat) :=
  proofLoop levels.dropLast index

/-- Leaf construction (MerkleGeneratorCSV.jsx lines 31-37): one leaf per
address, in input order; each leaf is keccak256 of the normalised address
bytes.  `ethers.getAddress` / `ethers.hexlify` only fix the textual case, so
on the modelled 20-byte value the leaf is `keccakAddress` of the address. -/
def buildLeavesFromAddresses (keccakAddress : Nat → Nat) (addresses : List Nat) : List Nat :=
  addresses.map keccakAddress

/-- The root-and-proofs generation handler (MerkleGeneratorCSV.jsx lines
190-224), reduced to its data flow: refuse an empty address list
(`addresses.length === 0` guard, line 195), build the tree, fail when no
root can be read off (`!root` check, line 203), and otherwise return the
root together with, per address, its leaf and extracted proof. -/
def handleGenerateRootAndProofs (keccakAddress : Nat → Nat) (H : Nat → Nat → Nat)
    (addresses : List Nat) :
    Except String (Nat × List (Nat × Nat × List (Option Nat))) :=
  if addresses.length = 0 then
    Except.error "No valid addresses to build tree."
  else
    let leaves := buildLeavesFromAddresses keccakAddress addresses
    let levels := buildMerkleTree H leaves
    match treeRoot levels with
    | none => Except.error "Failed to compute root."
    | some root =>
      Except.ok (root, (List.range addresses.length).map fun i =>
        (addresses.getD i 0, leaves.getD i 0, getProofForIndex levels i))

/-- The three test addresses of the spec's concrete scenario, as 20-byte
values. -/
def addr1 : Nat := 0x1111111111111111111111111111111111111111

def addr2 : Nat := 0x2222222222222222222222222222222222222222

def addr3 : Nat := 0x3333333333333333333333333333333333333333

/-- Concrete stand-in for the pair hash, used to instantiate witnesses. -/
def H0 : Nat → Nat → Nat := fun a b => 2 * a + 3 * b + 1

/-- Concrete stand-in for the address hash, used to instantiate witnesses. -/
def keccakAddress0 : Nat → Nat := fun a => a * a + 7

/-- Concrete stand-in for the candidate-name hash, used to instantiate
witnesses. -/
def keccakString0 : String → Nat := fun _ => 1

/-- On-chain ballot record (SimpleVoting.sol lines 15-23).  The Solidity
field named exists is a Lean keyword and is rendered existsFlag; a
merkleRoot of 0 is the all-zero bytes32 sentinel. -/
structure Ballot where
  title : String
  startTimestamp : Nat
  endTimestamp : Nat
  merkleRoot : Nat
  candidateNames : List String
  existsFlag : Bool
  finalized : Bool

/-- Contract storage (SimpleVoting.sol lines 25-30) plus the paused flag
inherited from OpenZeppelin Pausable.  Solidity mappings are total functions
with zero-valued defaults and are modelled as Lean functions; addresses are
their 20-byte values as naturals. -/
structure ContractState where
  ballots : Nat → Ballot
  candidateVotes : Nat → Nat → Nat
  hasVoted : Nat → Nat → Bool
  nameHashToIdPlusOne : Nat → Nat → Nat
  nextBallotId : Nat
  paused : Bool

/-- The vote entry point (SimpleVoting.sol lines 87-115).  An `Except.error`
models an EVM revert, which leaves storage unchanged.  The modifiers run in
source order — ballotExists, duringVoting, whenNotPaused (the paused message
is the OpenZeppelin v4 string) — followed by the body's requires.
`keccakString` models keccak256 of a candidate name's bytes, `keccakAddress`
models keccak256 of the packed 20-byte sender address, and `H` is the pair
hash used by MerkleProof.verify.  The checked uint256 increment of Solidity
0.8 reverts with a 0x11 panic on overflow, modelled by the explicit bound
check. -/
def vote (keccakString : String → Nat) (keccakAddress : Nat → Nat)
    (H : Nat → Nat → Nat) (s : ContractState) (blockTimestamp sender : Nat)
    (ballotId : Nat) (candidateName : String) (merkleProof : List Nat) :
    Except String ContractState :=
  if (s.ballots ballotId).existsFlag = false then
    Except.error "Ballot not found"
  else if blockTimestamp < (s.ballots ballotId).startTimestamp then
    Except.error "Voting not started"
  else if (s.ballots ballotId).endTimestamp < blockTimestamp then
    Except.error "Voting ended"
  else if s.paused = true then
    Except.error "Pausable: paused"
  else if (s.ballots ballotId).finalized = true then
    Except.error "Ballot finalized"
  else if s.hasVoted ballotId sender = true then
    Except.error "Already voted"
  else if (s.ballots ballotId).merkleRoot ≠ 0 ∧
      verify H merkleProof (s.ballots ballotId).merkleRoot (keccakAddress sender) = false then
    Except.error "Not eligible"
  else if s.nameHashToIdPlusOne ballotId (keccakString candidateName) = 0 then
    Except.error "Candidate not found"
  else if 2 ^ 256 ≤ s.candidateVotes ballotId
      (s.nameHashToIdPlusOne ballotId (keccakString candidateName) - 1) + 1 then
    Except.error "panic 0x11: arithmetic overflow"
  else
    Except.ok { s with
      candidateVotes := fun b c =>
        if b = ballotId ∧
            c = s.nameHashToIdPlusOne ballotId (keccakString candidateName) - 1 then
          s.candidateVotes b c + 1
        else s.candidateVotes b c,
      hasVoted := fun b a =>
        if b = ballotId ∧ a = sender then true else s.hasVoted b a }

/-- A live, whitelist-free ballot used to instantiate witnesses. -/
def ballotOpen : Ballot :=
  { title := "open", startTimestamp := 0, endTimestamp := 100, merkleRoot := 0,
    candidateNames := ["A"], existsFlag := true, finalized := false }

/-- The same ballot with a non-zero whitelist root. -/
def ballotGated : Ballot :=
  { ballotOpen with merkleRoot := 5 }

/-- A contract state holding `ballotOpen` everywhere, one candidate whose
name hash (under `keccakString0`) is 1, no votes cast, not paused. -/
def stateOpen : ContractState :=
  { ballots := fun _ => ballotOpen, candidateVotes := fun _ _ => 0,
    hasVoted := fun _ _ => false,
    nameHashToIdPlusOne := fun _ h => if h = 1 then 1 else 0,
    nextBallotId := 1, paused := false }

/-- The same state with the gated ballot. -/
def stateGated : ContractState :=
  { stateOpen with ballots := fun _ => ballotGated }

/-- The state `stateOpen` after sender 3 voted for candidate 0 on ballot 0:
the explicit form of the record the vote body produces. -/
def stateVoted : ContractState :=
  { stateOpen with
    candidateVotes := fun b c =>
      if b = 0 ∧ c = stateOpen.nameHashToIdPlusOne 0 (keccakString0 "A") - 1 then
        stateOpen.candidateVotes b c + 1
      else stateOpen.candidateVotes b c,
    hasVoted := fun b a => if b = 0 ∧ a = 3 then true else stateOpen.hasVoted b a }

/-! Helper lemmas about the combination step and level indexing. -/

theorem nextLevel_length (H : Nat → Nat → Nat) :
    ∀ l : List Nat, (nextLevel H l).length = (l.length + 1) / 2
  | [] => rfl
  | [_] => by simp [nextLevel]
  | _ :: _ :: rest => by
    have ih := nextLevel_length H rest
    simp only [nextLevel, List.length_cons, ih]
    omega

theorem combine_comm (H : Nat → Nat → Nat) (a b : Nat) :
    combine H a b = combine H b a := by
  unfold combine
  rcases Nat.lt_trichotomy a b with hab | hab | hab
  · rw [if_pos (Nat.le_of_lt hab), if_neg (by omega)]
  · subst hab; rfl
  · rw [if_neg (by omega), if_pos (Nat.le_of_lt hab)]

theorem hashPair_eq_combine (H : Nat → Nat → Nat) (a b : Nat) :
    hashPair H a b = combine H a b := by
  unfold hashPair combine
  rcases Nat.lt_trichotomy a b with hab | hab | hab
  · rw [if_pos hab, if_pos (Nat.le_of_lt hab)]
  · subst hab; rw [if_neg (Nat.lt_irrefl a), if_pos (Nat.le_refl a)]
  · rw [if_neg (by omega), if_neg (by omega)]

theorem xor_one_of_even (m : Nat) : (2 * m) ^^^ 1 = 2 * m + 1 := by
  apply Nat.eq_of_testBit_eq
  intro i
  rw [Nat.testBit_xor]
  cases i with
  | zero =>
    simp only [Nat.testBit_zero]
    have h1 : 2 * m % 2 = 0 := by omega
    have h2 : (2 * m + 1) % 2 = 1 := by omega
    rw [h1, h2]
    decide
  | succ i =>
    simp only [Nat.testBit_succ]
    have h1 : 2 * m / 2 = m := by omega
    have h2 : (2 * m + 1) / 2 = m := by omega
    have h3 : (1 : Nat) / 2 = 0 := by omega
    rw [h1, h2, h3, Nat.zero_testBit, Bool.xor_false]

theorem xor_one_of_odd (m : Nat) : (2 * m + 1) ^^^ 1 = 2 * m := by
  apply Nat.eq_of_testBit_eq
  intro i
  rw [Nat.testBit_xor]
  cases i with
  | zero =>
    simp only [Nat.testBit_zero]
    have h1 : 2 * m % 2 = 0 := by omega
    have h2 : (2 * m + 1) % 2 = 1 := by omega
    rw [h1, h2]
    decide
  | succ i =>
    simp only [Nat.testBit_succ]
    have h1 : 2 * m / 2 = m := by omega
    have h2 : (2 * m + 1) / 2 = m := by omega
    have h3 : (1 : Nat) / 2 = 0 := by omega
    rw [h1, h2, h3, Nat.zero_testBit, Bool.xor_false]

theorem getElem?_eq_some_getD (l : List Nat) (n : Nat) (h : n < l.length) :
    l[n]? = some (l.getD n 0) := by
  rw [List.getElem?_eq_getElem h]
  rw [List.getD_eq_getElem?_getD, List.getElem?_eq_getElem h]
  rfl

/-- Entry k of the next level, when the pair (2k, 2k+1) is complete. -/
theorem nextLevel_getD_pair (H : Nat → Nat → Nat) :
    ∀ (l : List Nat) (k : Nat), 2 * k + 1 < l.length →
      (nextLevel H l).getD k 0 = combine H (l.getD (2 * k) 0) (l.getD (2 * k + 1) 0)
  | [], _, h => absurd h (by simp only [List.length_nil]; omega)
  | [_], k, h => absurd h (by simp only [List.length_cons, List.length_nil]; omega)
  | _ :: _ :: rest, 0, _ => rfl
  | a :: b :: rest, k + 1, h => by
    have hrest : 2 * k + 1 < rest.length := by
      simp only [List.length_cons] at h; omega
    have ih := nextLevel_getD_pair H rest k hrest
    have e1 : 2 * (k + 1) = 2 * k + 1 + 1 := by omega
    rw [e1]
    simp only [nextLevel, List.getD_cons_succ]
    exact ih

/-- Entry k of the next level, when position 2k is an unpaired odd tail:
the node is combined with itself. -/
theorem nextLevel_getD_tail (H : Nat → Nat → Nat) :
    ∀ (l : List Nat) (k : Nat), 2 * k < l.length → l.length ≤ 2 * k + 1 →
      (nextLevel H l).getD k 0 = combine H (l.getD (2 * k) 0) (l.getD (2 * k) 0)
  | [], _, h1, _ => absurd h1 (by simp only [List.length_nil]; omega)
  | [_], 0, _, _ => rfl
  | [_], k + 1, h1, _ => absurd h1 (by simp only [List.length_cons, List.length_nil]; omega)
  | _ :: _ :: rest, 0, _, h2 => absurd h2 (by simp only [List.length_cons]; omega)
  | a :: b :: rest, k + 1, h1, h2 => by
    have hr1 : 2 * k < rest.length := by
      simp only [List.length_cons] at h1; omega
    have hr2 : rest.length ≤ 2 * k + 1 := by
      simp only [List.length_cons] at h2; omega
    have ih := nextLevel_getD_tail H rest k hr1 hr2
    have e1 : 2 * (k + 1) = 2 * k + 1 + 1 := by omega
    rw [e1]
    simp only [nextLevel, List.getD_cons_succ]
    exact ih

/-- The sibling entry the proof loop pushes for an in-range index combines
with the current node into exactly the parent entry of the next level. -/
theorem proof_entry_parent (H : Nat → Nat → Nat) (l : List Nat) (idx : Nat)
    (h : idx < l.length) :
    ∃ s, (if idx ^^^ 1 < l.length then l[idx ^^^ 1]? else l[idx]?) = some s ∧
      combine H (l.getD idx 0) s = (nextLevel H l).getD (idx / 2) 0 := by
  rcases Nat.even_or_odd idx with he | ho
  · obtain ⟨m, hm⟩ := he
    have hidx : idx = 2 * m := by omega
    subst hidx
    rw [xor_one_of_even m]
    have hdiv : 2 * m / 2 = m := by omega
    rw [hdiv]
    by_cases hsib : 2 * m + 1 < l.length
    · refine ⟨l.getD (2 * m + 1) 0, ?_, ?_⟩
      · rw [if_pos hsib]
        exact getElem?_eq_some_getD l (2 * m + 1) hsib
      · rw [nextLevel_getD_pair H l m hsib]
    · refine ⟨l.getD (2 * m) 0, ?_, ?_⟩
      · rw [if_neg hsib]
        exact getElem?_eq_some_getD l (2 * m) h
      · rw [nextLevel_getD_tail H l m h (by omega)]
  · obtain ⟨m, hm⟩ := ho
    subst hm
    rw [xor_one_of_odd m]
    have hdiv : (2 * m + 1) / 2 = m := by omega
    rw [hdiv]
    have hsib : 2 * m < l.length := by omega
    refine ⟨l.getD (2 * m) 0, ?_, ?_⟩
    · rw [if_pos hsib]
      exact getElem?_eq_some_getD l (2 * m) hsib
    · rw [combine_comm, nextLevel_getD_pair H l m h]

theorem buildLevelsGo_ne_nil (H : Nat → Nat → Nat) :
    ∀ (fuel : Nat) (l : List Nat), buildLevelsGo H fuel l ≠ []
  | 0, l => by simp [buildLevelsGo]
  | fuel + 1, l => by
    simp only [buildLevelsGo]
    split <;> simp

theorem buildMerkleTree_ne_nil (H : Nat → Nat → Nat) (l : List Nat) :
    buildMerkleTree H l ≠ [] :=
  buildLevelsGo_ne_nil H l.length l

/-- The iteration bound is irrelevant as long as it exceeds the number of
rounds the while loop actually runs. -/
theorem buildLevelsGo_congr (H : Nat → Nat → Nat) :
    ∀ (f1 f2 : Nat) (l : List Nat), l.length ≤ f1 + 1 → l.length ≤ f2 + 1 →
      buildLevelsGo H f1 l = buildLevelsGo H f2 l
  | 0, 0, l, _, _ => rfl
  | 0, f2 + 1, l, h1, _ => by
    simp only [buildLevelsGo]
    rw [if_neg (by omega)]
  | f1 + 1, 0, l, _, h2 => by
    simp only [buildLevelsGo]
    rw [if_neg (by omega)]
  | f1 + 1, f2 + 1, l, h1, h2 => by
    simp only [buildLevelsGo]
    by_cases hl : 1 < l.length
    · rw [if_pos hl, if_pos hl]
      have hnl := nextLevel_length H l
      rw [buildLevelsGo_congr H f1 f2 (nextLevel H l) (by omega) (by omega)]
    · rw [if_neg hl, if_neg hl]

/-- First defining equation of the while loop: with two or more nodes the
current level is pushed and the loop continues on the combined level. -/
theorem buildMerkleTree_step (H : Nat → Nat → Nat) (l : List Nat) (h : 1 < l.length) :
    buildMerkleTree H l = l :: buildMerkleTree H (nextLevel H l) := by
  unfold buildMerkleTree
  cases e : l.length with
  | zero => omega
  | succ n =>
    simp only [buildLevelsGo]
    rw [if_pos h]
    congr 1
    apply buildLevelsGo_congr
    · have := nextLevel_length H l
      omega
    · omega

/-- Second defining equation of the while loop: on fewer than two nodes the
loop body never runs. -/
theorem buildMerkleTree_base (H : Nat → Nat → Nat) (l : List Nat) (h : l.length ≤ 1) :
    buildMerkleTree H l = [l] := by
  unfold buildMerkleTree
  cases e : l.length with
  | zero => rfl
  | succ n =>
    simp only [buildLevelsGo]
    rw [if_neg (by omega)]

theorem getLast?_cons_of_ne_nil {α : Type} (a : α) (L : List α) (h : L ≠ []) :
    (a :: L).getLast? = L.getLast? := by
  match L with
  | [] => exact absurd rfl h
  | b :: t => exact List.getLast?_cons_cons

theorem dropLast_cons_of_ne_nil {α : Type} (a : α) (L : List α) (h : L ≠ []) :
    (a :: L).dropLast = a :: L.dropLast := by
  match L with
  | [] => exact absurd rfl h
  | b :: t => exact List.dropLast_cons₂

/-- Climbing invariant behind the round-trip property: for an in-range leaf
index, every entry the proof loop pushes is present (never `undefined`), and
folding the pushed siblings onto the leaf digest with the verifier's
combination step lands exactly on the single digest of the tree's last
level. -/
theorem climb_aux (H : Nat → Nat → Nat) (n : Nat) :
    ∀ l : List Nat, l.length ≤ n → ∀ idx, idx < l.length →
      (∀ o ∈ proofLoop (buildMerkleTree H l).dropLast idx, o.isSome) ∧
      (buildMerkleTree H l).getLast? =
        some [List.foldl (hashPair H) (l.getD idx 0)
          (List.reduceOption (proofLoop (buildMerkleTree H l).dropLast idx))] := by
  induction n with
  | zero =>
    intro l hl idx hidx
    exact absurd hidx (by omega)
  | succ n ih =>
    intro l hl idx hidx
    by_cases hlen : 1 < l.length
    · obtain ⟨s, hs, hcomb⟩ := proof_entry_parent H l idx hidx
      have hstep := buildMerkleTree_step H l hlen
      have hne : buildMerkleTree H (nextLevel H l) ≠ [] := buildMerkleTree_ne_nil H _
      have hnl_len : (nextLevel H l).length = (l.length + 1) / 2 := nextLevel_length H _
      have hidx2 : idx / 2 < (nextLevel H l).length := by omega
      have hrec := ih (nextLevel H l) (by omega) (idx / 2) hidx2
      rw [hstep, dropLast_cons_of_ne_nil _ _ hne, getLast?_cons_of_ne_nil _ _ hne]
      simp only [proofLoop]
      rw [hs]
      constructor
      · intro o ho
        rcases List.mem_cons.mp ho with rfl | hmem
        · rfl
        · exact hrec.1 o hmem
      · rw [List.reduceOption_cons_of_some, List.foldl_cons,
          hashPair_eq_combine, hcomb]
        exact hrec.2
    · have hl1 : l.length = 1 := by omega
      obtain ⟨x, rfl⟩ := List.length_eq_one.mp hl1
      have hidx0 : idx = 0 := by omega
      subst hidx0
      constructor
      · intro o ho
        simp [buildMerkleTree, buildLevelsGo, proofLoop] at ho
      · simp [buildMerkleTree, buildLevelsGo, proofLoop]

theorem buildMerkleTree_getD_zero (H : Nat → Nat → Nat) (l : List Nat) :
    (buildMerkleTree H l).getD 0 [] = l := by
  by_cases h : 1 < l.length
  · rw [buildMerkleTree_step H l h]; rfl
  · rw [buildMerkleTree_base H l (by omega)]; rfl

/-- Each level of the built tree is the combined image of the one below. -/
theorem buildMerkleTree_succ_level (H : Nat → Nat → Nat) (n : Nat) :
    ∀ l : List Nat, l.length ≤ n → ∀ i, i + 1 < (buildMerkleTree H l).length →
      (buildMerkleTree H l).getD (i + 1) [] =
        nextLevel H ((buildMerkleTree H l).getD i []) := by
  induction n with
  | zero =>
    intro l hl i hi
    have hnil : l = [] := List.eq_nil_of_length_eq_zero (by omega)
    subst hnil
    rw [buildMerkleTree_base H [] (by simp)] at hi
    simp at hi
  | succ n ih =>
    intro l hl i hi
    by_cases hlen : 1 < l.length
    · rw [buildMerkleTree_step H l hlen] at hi ⊢
      cases i with
      | zero =>
        simp only [List.getD_cons_succ, List.getD_cons_zero]
        exact buildMerkleTree_getD_zero H (nextLevel H l)
      | succ i =>
        simp only [List.getD_cons_succ]
        have hnl := nextLevel_length H l
        apply ih (nextLevel H l) (by omega) i
        simp only [List.length_cons] at hi
        omega
    · rw [buildMerkleTree_base H l (by omega)] at hi
      simp at hi

theorem getLastD_irrel {α : Type} (L : List α) (h : L ≠ []) (d1 d2 : α) :
    L.getLastD d1 = L.getLastD d2 := by
  rw [List.getLastD_eq_getLast?, List.getLastD_eq_getLast?]
  cases e : L.getLast? with
  | none => exact absurd (List.getLast?_eq_none_iff.mp e) h
  | some x => rfl

/-- On a level of odd length the last entry of the combined level is the
self-pairing of the level's last entry. -/
theorem nextLevel_getLast_of_odd (H : Nat → Nat → Nat) :
    ∀ l : List Nat, l.length % 2 = 1 →
      (nextLevel H l).getLast? = some (combine H (l.getLastD 0) (l.getLastD 0))
  | [], h => by simp at h
  | [a], _ => rfl
  | a :: b :: rest, h => by
    have hr : rest.length % 2 = 1 := by
      simp only [List.length_cons] at h; omega
    have hrne : rest ≠ [] := by
      intro e; rw [e] at hr; simp at hr
    have hnlne : nextLevel H rest ≠ [] := by
      intro e
      have hlen := nextLevel_length H rest
      rw [e] at hlen
      simp only [List.length_nil] at hlen
      omega
    have ih := nextLevel_getLast_of_odd H rest hr
    have hlast : (a :: b :: rest).getLastD 0 = rest.getLastD 0 := by
      rw [List.getLastD_eq_getLast?, List.getLastD_eq_getLast?,
        List.getLast?_cons_cons, getLast?_cons_of_ne_nil b rest hrne]
    simp only [nextLevel]
    rw [getLast?_cons_of_ne_nil _ _ hnlne, ih, hlast]

theorem proofLoop_length :
    ∀ (L : List (List Nat)) (idx : Nat), (proofLoop L idx).length = L.length
  | [], _ => rfl
  | level :: rest, idx => by
    simp only [proofLoop, List.length_cons, proofLoop_length rest (idx / 2)]

/-! The claims. -/

/-- C1: Round-trip self-consistency: for every non-empty list of leaf
digests and every index i below the number of leaves, the tree built by
buildMerkleTree has a single digest r in its last level (the root, also what
treeRoot extracts), the proof extracted by getProofForIndex has no missing
entry, and verifying it (starting from leaf i and absorbing each proof
element with the canonically ordered pair hash, as the on-chain
MerkleProof.verify does) accepts against r. -/
theorem merkle_round_trip (H : Nat → Nat → Nat) (leaves : List Nat) (i : Nat)
    (h : i < leaves.length) :
    (∀ o ∈ getProofForIndex (buildMerkleTree H leaves) i, o.isSome) ∧
    ∃ r, (buildMerkleTree H leaves).getLast? = some [r] ∧
      treeRoot (buildMerkleTree H leaves) = some r ∧
      verify H (getProofForIndex (buildMerkleTree H leaves) i).reduceOption r
        (leaves.getD i 0) = true := by
  have hc := climb_aux H leaves.length leaves (Nat.le_refl _) i h
  refine ⟨hc.1, _, hc.2, ?_, ?_⟩
  · unfold treeRoot
    rw [hc.2]
    rfl
  · unfold verify processProof getProofForIndex
    simp

theorem merkle_round_trip_witness :
    ∃ r, (buildMerkleTree H0 [1, 2, 3]).getLast? = some [r] ∧
      treeRoot (buildMerkleTree H0 [1, 2, 3]) = some r ∧
      verify H0 (getProofForIndex (buildMerkleTree H0 [1, 2, 3]) 1).reduceOption r
        (([1, 2, 3] : List Nat).getD 1 0) = true :=
  (merkle_round_trip H0 [1, 2, 3] 1 (by simp)).2

/-- C2: Tree construction invariant and odd-count rule: for a non-empty leaf
list, level 0 of the built tree is the leaf list; every further level is the
pairwise combination (nextLevel) of the one below it, hence has
ceil(n/2) = (n+1)/2 entries for an n-entry predecessor, and when the
predecessor has odd length its unpaired last entry is paired with itself;
the process terminates in a last level holding exactly one digest. -/
theorem tree_levels_invariant (H : Nat → Nat → Nat) (leaves : List Nat)
    (hne : leaves ≠ []) :
    (buildMerkleTree H leaves).getD 0 [] = leaves ∧
    (∀ i, i + 1 < (buildMerkleTree H leaves).length →
      (buildMerkleTree H leaves).getD (i + 1) [] =
        nextLevel H ((buildMerkleTree H leaves).getD i []) ∧
      ((buildMerkleTree H leaves).getD (i + 1) []).length =
        (((buildMerkleTree H leaves).getD i []).length + 1) / 2 ∧
      (((buildMerkleTree H leaves).getD i []).length % 2 = 1 →
        ((buildMerkleTree H leaves).getD (i + 1) []).getLast? =
          some (combine H (((buildMerkleTree H leaves).getD i []).getLastD 0)
            (((buildMerkleTree H leaves).getD i []).getLastD 0)))) ∧
    ∃ r, (buildMerkleTree H leaves).getLast? = some [r] := by
  refine ⟨buildMerkleTree_getD_zero H leaves, ?_, ?_⟩
  · intro i hi
    have hstep := buildMerkleTree_succ_level H leaves.length leaves (Nat.le_refl _) i hi
    refine ⟨hstep, ?_, ?_⟩
    · rw [hstep, nextLevel_length]
    · intro hodd
      rw [hstep]
      exact nextLevel_getLast_of_odd H _ hodd
  · have hlen : 0 < leaves.length := List.length_pos.mpr hne
    exact ⟨_, (climb_aux H leaves.length leaves (Nat.le_refl _) 0 hlen).2⟩

theorem tree_levels_invariant_witness :
    (buildMerkleTree H0 [1, 2]).getD 0 [] = [1, 2] ∧
    ((buildMerkleTree H0 [1, 2]).getD 1 []).length =
      (((buildMerkleTree H0 [1, 2]).getD 0 []).length + 1) / 2 := by
  have h := tree_levels_invariant H0 [1, 2] (by simp)
  exact ⟨h.1, (h.2.1 0 (by simp [buildMerkleTree, buildLevelsGo, nextLevel])).2.1⟩

/-- C5: Single-leaf edge case: one leaf produces a tree with the single
level [x] whose sole entry is the root, the proof for index 0 is empty, and
the empty proof verifies the leaf against that root. -/
theorem single_leaf_edge_case (H : Nat → Nat → Nat) (x : Nat) :
    buildMerkleTree H [x] = [[x]] ∧
    treeRoot (buildMerkleTree H [x]) = some x ∧
    getProofForIndex (buildMerkleTree H [x]) 0 = [] ∧
    verify H [] x x = true := by
  have hb : buildMerkleTree H [x] = [[x]] := by
    simp [buildMerkleTree, buildLevelsGo]
  refine ⟨hb, ?_, ?_, ?_⟩
  · rw [hb]; rfl
  · rw [getProofForIndex, hb]
    rfl
  · simp [verify, processProof]

/-- C6: Commutativity of the pairwise combine: because the two digests are
canonically ordered (smaller-or-equal first) before concatenation and
hashing, swapping the arguments yields the same parent digest. -/
theorem combine_commutative (H : Nat → Nat → Nat) (a b : Nat) :
    combine H a b = combine H b a :=
  combine_comm H a b

/-- C7: Concrete three-address scenario: for the three test addresses (odd
count), the tree has exactly 3 levels of sizes 3, 2, 1, and the proof for
index 2 (the odd tail) has length 2 with first element the leaf digest of
address 3 itself. -/
theorem three_address_scenario (keccakAddress : Nat → Nat) (H : Nat → Nat → Nat) :
    (buildMerkleTree H (buildLeavesFromAddresses keccakAddress [addr1, addr2, addr3])).length
        = 3 ∧
    ((buildMerkleTree H
      (buildLeavesFromAddresses keccakAddress [addr1, addr2, addr3])).getD 0 []).length = 3 ∧
    ((buildMerkleTree H
      (buildLeavesFromAddresses keccakAddress [addr1, addr2, addr3])).getD 1 []).length = 2 ∧
    ((buildMerkleTree H
      (buildLeavesFromAddresses keccakAddress [addr1, addr2, addr3])).getD 2 []).length = 1 ∧
    (getProofForIndex
      (buildMerkleTree H (buildLeavesFromAddresses keccakAddress [addr1, addr2, addr3]))
      2).length = 2 ∧
    (getProofForIndex
      (buildMerkleTree H (buildLeavesFromAddresses keccakAddress [addr1, addr2, addr3]))
      2).getD 0 none = some (keccakAddress addr3) := by
  have hx2 : (2 : Nat) ^^^ 1 = 3 := by decide
  have hx1 : (1 : Nat) ^^^ 1 = 0 := by decide
  have htree : buildMerkleTree H
      (buildLeavesFromAddresses keccakAddress [addr1, addr2, addr3]) =
      [[keccakAddress addr1, keccakAddress addr2, keccakAddress addr3],
       [combine H (keccakAddress addr1) (keccakAddress addr2),
        combine H (keccakAddress addr3) (keccakAddress addr3)],
       [combine H (combine H (keccakAddress addr1) (keccakAddress addr2))
          (combine H (keccakAddress addr3) (keccakAddress addr3))]] := by
    simp [buildLeavesFromAddresses, buildMerkleTree, buildLevelsGo, nextLevel]
  rw [htree]
  refine ⟨rfl, rfl, rfl, rfl, ?_, ?_⟩
  · simp [getProofForIndex, proofLoop, hx2, hx1]
  · simp [getProofForIndex, proofLoop, hx2, hx1]

/-- C9: Leaf construction is order-preserving, 1:1, and does not
deduplicate: the leaf list has one digest per input address, position i
holds the hash of address i, and equal addresses at two positions give
equal leaves at those positions. -/
theorem leaves_order_preserving (keccakAddress : Nat → Nat) (addresses : List Nat) :
    (buildLeavesFromAddresses keccakAddress addresses).length = addresses.length ∧
    (∀ i : Nat, (buildLeavesFromAddresses keccakAddress addresses)[i]? =
      (addresses[i]?).map keccakAddress) ∧
    (∀ i j : Nat, addresses[i]? = addresses[j]? →
      (buildLeavesFromAddresses keccakAddress addresses)[i]? =
        (buildLeavesFromAddresses keccakAddress addresses)[j]?) := by
  refine ⟨by simp [buildLeavesFromAddresses], ?_, ?_⟩
  · intro i
    simp [buildLeavesFromAddresses]
  · intro i j hij
    simp [buildLeavesFromAddresses, hij]

theorem leaves_order_preserving_witness :
    (buildLeavesFromAddresses keccakAddress0 [5, 5])[0]? =
      (buildLeavesFromAddresses keccakAddress0 [5, 5])[1]? :=
  (leaves_order_preserving keccakAddress0 [5, 5]).2.2 0 1 (by rfl)

/-- C3 counterexample: buildMerkleTree applied to the empty leaf list does
not signal any failure — it returns the degenerate one-level tree [[]]
(the source's levels array [[]]), so the claim that the builder itself
fails with EmptyInput is false at the input []. -/
theorem empty_input_counterexample :
    buildMerkleTree H0 [] = [[]] ∧ treeRoot (buildMerkleTree H0 []) = none := by
  exact ⟨rfl, rfl⟩

/-- C3 amended: buildMerkleTree on zero leaves returns the degenerate tree
[[]] with no root digest in it (treeRoot yields none), and the empty-input
failure is signalled by the caller handleGenerateRootAndProofs, which
refuses to build for an empty address list. -/
theorem empty_input_behavior (keccakAddress : Nat → Nat) (H : Nat → Nat → Nat) :
    buildMerkleTree H [] = [[]] ∧
    treeRoot (buildMerkleTree H []) = none ∧
    handleGenerateRootAndProofs keccakAddress H [] =
      Except.error "No valid addresses to build tree." := by
  refine ⟨rfl, ?_, rfl⟩
  rw [buildMerkleTree]
  rfl

/-- C4 counterexample: getProofForIndex does not signal IndexOutOfRange for
an out-of-range index: on the three-leaf tree over [1, 2, 3] and index 5 it
returns a two-entry proof array whose entries are missing (the JavaScript
undefined), not a failure. -/
theorem index_out_of_range_counterexample :
    getProofForIndex (buildMerkleTree H0 [1, 2, 3]) 5 = [none, none] := by
  decide

/-- C4 amended: getProofForIndex performs no bounds check: for every index,
in range or not, it returns one entry per non-root level of the tree (never
a failure); out-of-range reads simply yield missing entries, as in the
counterexample. -/
theorem proof_extraction_no_bounds_check (H : Nat → Nat → Nat)
    (leaves : List Nat) (index : Nat) :
    (getProofForIndex (buildMerkleTree H leaves) index).length =
      (buildMerkleTree H leaves).length - 1 := by
  unfold getProofForIndex
  rw [proofLoop_length, List.length_dropLast]

/-- When a voter who already voted retries while the ballot is live (exists,
inside the window, not paused, not finalized), vote reverts with the
Already-voted message. -/
theorem vote_already_voted (keccakString : String → Nat) (keccakAddress : Nat → Nat)
    (H : Nat → Nat → Nat) (s : ContractState) (blockTimestamp sender ballotId : Nat)
    (candidateName : String) (merkleProof : List Nat)
    (hex : (s.ballots ballotId).existsFlag = true)
    (hts1 : (s.ballots ballotId).startTimestamp ≤ blockTimestamp)
    (hts2 : blockTimestamp ≤ (s.ballots ballotId).endTimestamp)
    (hp : s.paused = false)
    (hf : (s.ballots ballotId).finalized = false)
    (hv : s.hasVoted ballotId sender = true) :
    vote keccakString keccakAddress H s blockTimestamp sender ballotId candidateName
      merkleProof = Except.error "Already voted" := by
  unfold vote
  rw [if_neg (by rw [hex]; simp), if_neg (by omega), if_neg (by omega),
    if_neg (by rw [hp]; simp), if_neg (by rw [hf]; simp), if_pos hv]

set_option maxHeartbeats 2000000 in
/-- C8: Zero-root sentinel and rejection behaviour of the on-chain
membership check: when the ballot's stored merkleRoot is the all-zero value
the Merkle verification is skipped — the outcome of vote does not depend on
the supplied proof, and is never the "Not eligible" rejection; when the
stored root is non-zero and every check before the membership check passes
(ballot exists, timestamp inside the window, not paused, not finalized,
sender has not voted), vote is rejected with "Not eligible" — a revert,
which in this embedding returns no new state — exactly when the supplied
proof fails to reconstruct the stored root from the leaf hash of the
sender's address. -/
theorem vote_membership_check (keccakString : String → Nat)
    (keccakAddress : Nat → Nat) (H : Nat → Nat → Nat) (s : ContractState)
    (blockTimestamp sender ballotId : Nat) (candidateName : String)
    (merkleProof : List Nat) :
    ((s.ballots ballotId).merkleRoot = 0 →
      (∀ p1 p2 : List Nat,
        vote keccakString keccakAddress H s blockTimestamp sender ballotId
            candidateName p1 =
          vote keccakString keccakAddress H s blockTimestamp sender ballotId
            candidateName p2) ∧
      vote keccakString keccakAddress H s blockTimestamp sender ballotId candidateName
        merkleProof ≠ Except.error "Not eligible") ∧
    ((s.ballots ballotId).merkleRoot ≠ 0 →
      (s.ballots ballotId).existsFlag = true →
      (s.ballots ballotId).startTimestamp ≤ blockTimestamp →
      blockTimestamp ≤ (s.ballots ballotId).endTimestamp →
      s.paused = false →
      (s.ballots ballotId).finalized = false →
      s.hasVoted ballotId sender = false →
      (vote keccakString keccakAddress H s blockTimestamp sender ballotId candidateName
          merkleProof = Except.error "Not eligible" ↔
        verify H merkleProof (s.ballots ballotId).merkleRoot (keccakAddress sender)
          = false)) := by
  constructor
  · intro hroot
    have hcond : ∀ p : List Nat,
        ¬((s.ballots ballotId).merkleRoot ≠ 0 ∧
          verify H p (s.ballots ballotId).merkleRoot (keccakAddress sender) = false) :=
      fun p hc => hc.1 hroot
    constructor
    · intro p1 p2
      unfold vote
      rw [if_neg (hcond p1), if_neg (hcond p2)]
    · unfold vote
      rw [if_neg (hcond merkleProof)]
      split_ifs <;> intro hc <;>
        first
        | (injection hc with hstr; exact absurd hstr (by decide))
        | injection hc
  · intro hroot hex hts1 hts2 hp hf hv
    unfold vote
    rw [if_neg (by rw [hex]; simp), if_neg (by omega), if_neg (by omega),
      if_neg (by rw [hp]; simp), if_neg (by rw [hf]; simp),
      if_neg (by rw [hv]; simp)]
    constructor
    · intro heq
      by_contra hvf
      have hvt : verify H merkleProof (s.ballots ballotId).merkleRoot
          (keccakAddress sender) = true := by
        revert hvf
        cases verify H merkleProof (s.ballots ballotId).merkleRoot (keccakAddress sender)
          <;> simp
      rw [if_neg (by rw [hvt]; simp)] at heq
      split_ifs at heq <;> injection heq with hstr <;>
        exact absurd hstr (by decide)
    · intro hvf
      rw [if_pos ⟨hroot, hvf⟩]

set_option maxHeartbeats 2000000 in
theorem vote_membership_check_witness :
    (vote keccakString0 keccakAddress0 H0 stateGated 1 3 0 "A" [] =
        Except.error "Not eligible" ↔
      verify H0 [] (stateGated.ballots 0).merkleRoot (keccakAddress0 3) = false) ∧
    vote keccakString0 keccakAddress0 H0 stateOpen 1 3 0 "A" [] =
      vote keccakString0 keccakAddress0 H0 stateOpen 1 3 0 "A" [7] ∧
    vote keccakString0 keccakAddress0 H0 stateOpen 1 3 0 "A" [] ≠
      Except.error "Not eligible" := by
  have hg := vote_membership_check keccakString0 keccakAddress0 H0 stateGated 1 3 0 "A" []
  have ho := vote_membership_check keccakString0 keccakAddress0 H0 stateOpen 1 3 0 "A" []
  exact ⟨hg.2 (by decide) (by decide) (by decide) (by decide) (by decide) (by decide)
      (by decide),
    (ho.1 (by decide)).1 [] [7], (ho.1 (by decide)).2⟩

set_option maxHeartbeats 2000000 in
/-- C10: Frame property of a successful vote: when vote returns a new state,
the ballot had the named candidate (non-zero id-plus-one), exactly that
candidate's count on exactly that ballot grew by one, exactly the sender's
has-voted flag on that ballot was set, and nothing else changed — every
other count and flag, all ballot records (title, timestamps, merkleRoot,
candidate names, finalized), the name index, the ballot counter and the
paused flag are untouched; and a subsequent vote by the same sender on the
same ballot, at any time still inside the voting window, reverts with
"Already voted" (a revert returns no new state in this embedding). -/
theorem vote_success_frame (keccakString : String → Nat) (keccakAddress : Nat → Nat)
    (H : Nat → Nat → Nat) (s : ContractState) (blockTimestamp sender ballotId : Nat)
    (candidateName : String) (merkleProof : List Nat) (s2 : ContractState)
    (hok : vote keccakString keccakAddress H s blockTimestamp sender ballotId
      candidateName merkleProof = Except.ok s2) :
    s.nameHashToIdPlusOne ballotId (keccakString candidateName) ≠ 0 ∧
    s2.candidateVotes ballotId
        (s.nameHashToIdPlusOne ballotId (keccakString candidateName) - 1) =
      s.candidateVotes ballotId
        (s.nameHashToIdPlusOne ballotId (keccakString candidateName) - 1) + 1 ∧
    (∀ b c : Nat,
      b ≠ ballotId ∨ c ≠ s.nameHashToIdPlusOne ballotId (keccakString candidateName) - 1 →
      s2.candidateVotes b c = s.candidateVotes b c) ∧
    s2.hasVoted ballotId sender = true ∧
    (∀ b a : Nat, b ≠ ballotId ∨ a ≠ sender → s2.hasVoted b a = s.hasVoted b a) ∧
    s2.ballots = s.ballots ∧
    s2.nameHashToIdPlusOne = s.nameHashToIdPlusOne ∧
    s2.nextBallotId = s.nextBallotId ∧
    s2.paused = s.paused ∧
    (∀ (name2 : String) (proof2 : List Nat) (ts2 : Nat),
      (s.ballots ballotId).startTimestamp ≤ ts2 →
      ts2 ≤ (s.ballots ballotId).endTimestamp →
      vote keccakString keccakAddress H s2 ts2 sender ballotId name2 proof2 =
        Except.error "Already voted") := by
  unfold vote at hok
  by_cases h1 : (s.ballots ballotId).existsFlag = false
  · rw [if_pos h1] at hok; exact Except.noConfusion hok
  rw [if_neg h1] at hok
  by_cases h2 : blockTimestamp < (s.ballots ballotId).startTimestamp
  · rw [if_pos h2] at hok; exact Except.noConfusion hok
  rw [if_neg h2] at hok
  by_cases h3 : (s.ballots ballotId).endTimestamp < blockTimestamp
  · rw [if_pos h3] at hok; exact Except.noConfusion hok
  rw [if_neg h3] at hok
  by_cases h4 : s.paused = true
  · rw [if_pos h4] at hok; exact Except.noConfusion hok
  rw [if_neg h4] at hok
  by_cases h5 : (s.ballots ballotId).finalized = true
  · rw [if_pos h5] at hok; exact Except.noConfusion hok
  rw [if_neg h5] at hok
  by_cases h6 : s.hasVoted ballotId sender = true
  · rw [if_pos h6] at hok; exact Except.noConfusion hok
  rw [if_neg h6] at hok
  by_cases h7 : (s.ballots ballotId).merkleRoot ≠ 0 ∧
      verify H merkleProof (s.ballots ballotId).merkleRoot (keccakAddress sender) = false
  · rw [if_pos h7] at hok; exact Except.noConfusion hok
  rw [if_neg h7] at hok
  by_cases h8 : s.nameHashToIdPlusOne ballotId (keccakString candidateName) = 0
  · rw [if_pos h8] at hok; exact Except.noConfusion hok
  rw [if_neg h8] at hok
  by_cases h9 : 2 ^ 256 ≤ s.candidateVotes ballotId
      (s.nameHashToIdPlusOne ballotId (keccakString candidateName) - 1) + 1
  · rw [if_pos h9] at hok; exact Except.noConfusion hok
  rw [if_neg h9] at hok
  rw [Except.ok.injEq] at hok
  subst hok
  have hex : (s.ballots ballotId).existsFlag = true := by
    revert h1; cases (s.ballots ballotId).existsFlag <;> simp
  have hp : s.paused = false := by
    revert h4; cases s.paused <;> simp
  have hf : (s.ballots ballotId).finalized = false := by
    revert h5; cases (s.ballots ballotId).finalized <;> simp
  refine ⟨h8, by simp, ?_, by simp, ?_, rfl, rfl, rfl, rfl, ?_⟩
  · intro b c hbc
    rcases hbc with hb | hc
    · simp [hb]
    · simp [hc]
  · intro b a hba
    rcases hba with hb | ha
    · simp [hb]
    · simp [ha]
  · intro name2 proof2 ts2 hts1 hts2
    exact vote_already_voted keccakString keccakAddress H _ ts2 sender ballotId
      name2 proof2 hex hts1 hts2 hp hf (by simp)

set_option maxHeartbeats 2000000 in
theorem vote_success_frame_witness :
    stateVoted.candidateVotes 0 0 = stateOpen.candidateVotes 0 0 + 1 ∧
    stateVoted.hasVoted 0 3 = true ∧
    stateVoted.candidateVotes 1 0 = stateOpen.candidateVotes 1 0 ∧
    stateVoted.hasVoted 0 4 = stateOpen.hasVoted 0 4 ∧
    stateVoted.ballots = stateOpen.ballots ∧
    vote keccakString0 keccakAddress0 H0 stateVoted 2 3 0 "B" [] =
      Except.error "Already voted" := by
  have h := vote_success_frame keccakString0 keccakAddress0 H0 stateOpen 1 3 0 "A" []
    stateVoted (by rfl)
  exact ⟨h.2.1, h.2.2.2.1, h.2.2.1 1 0 (Or.inl (by decide)),
    h.2.2.2.2.1 0 4 (Or.inr (by decide)), h.2.2.2.2.2.1,
    h.2.2.2.2.2.2.2.2.2 "B" [] 2 (by decide) (by decide)⟩

end VotingDapp
